import Mathlib

/-!
Verification of the HMLLDB enhanced-disassemble core: a shallow embedding of
`HMDisassemble.py` (line parsing, forward annotation walk, branch-target
resolution, output splicing) and `HMInstructionsHelper.py` (adrp page
arithmetic).  Python strings are embedded as `List Char` where character-level
processing matters and as Lean `String` elsewhere; Python integers are `Int`
(arbitrary precision, as in the source); the fallible external debugger
services (disassembly, memory read, symbol lookup) are an explicit `Env`
record of functions.
-/

set_option maxHeartbeats 1000000
set_option maxRecDepth 2000

namespace HMLLDB

/-! ## Python string primitives over `List Char` -/

/-- Whitespace test matching Python `str.split()` with no separator
(ASCII whitespace; the listings produced by the debugger contain only
spaces). -/
def isPySpace (c : Char) : Bool :=
  c = ' ' || c = '\t' || c = '\n' || c = '\r' || c = '\x0b' || c = '\x0c'

/-- Accumulator-based splitter: `cur` holds the reversed current word. -/
def wordsAux : List Char → List Char → List (List Char)
  | cur, [] => if cur = [] then [] else [cur.reverse]
  | cur, c :: cs =>
    if isPySpace c then
      if cur = [] then wordsAux [] cs else cur.reverse :: wordsAux [] cs
    else wordsAux (c :: cur) cs

/-- Python `str.split()` with no argument: split on whitespace runs,
discarding empty fields. -/
def pySplitChars (cs : List Char) : List (List Char) := wordsAux [] cs

/-- Python `str.find(c)` for a single character: index of the first
occurrence, `none` standing for Python's `-1`. -/
def pyFind (c : Char) : List Char → Option Nat
  | [] => none
  | x :: xs => if x = c then some 0 else (pyFind c xs).map (· + 1)

/-- Python `str.rstrip(':')`: remove every trailing colon. -/
def rstripColon (cs : List Char) : List Char :=
  (cs.reverse.dropWhile (fun c => c = ':')).reverse

/-- The bracket handling of `get_address_from_assemble_line`
(HMDisassemble.py:142-145): `start = s.find('[') ; end = s.find(']')`,
and when `0 <= start < end` the slice `s[start+1:end]` replaces `s`. -/
def bracket_extract (cs : List Char) : List Char :=
  match pyFind '[' cs, pyFind ']' cs with
  | some s, some e => if s < e then (cs.drop (s + 1)).take (e - (s + 1)) else cs
  | _, _ => cs

/-! ## Python integer-literal parsing (the builtin `int`) -/

def decDigitVal (c : Char) : Option Nat :=
  if 48 ≤ c.toNat ∧ c.toNat ≤ 57 then some (c.toNat - 48) else none

def hexDigitVal (c : Char) : Option Nat :=
  if 48 ≤ c.toNat ∧ c.toNat ≤ 57 then some (c.toNat - 48)
  else if 97 ≤ c.toNat ∧ c.toNat ≤ 102 then some (c.toNat - 87)
  else if 65 ≤ c.toNat ∧ c.toNat ≤ 70 then some (c.toNat - 55)
  else none

def parseDigitsAux (dv : Char → Option Nat) (base : Nat) : List Char → Nat → Option Nat
  | [], acc => some acc
  | c :: cs, acc =>
    match dv c with
    | some d => parseDigitsAux dv base cs (acc * base + d)
    | none => none

/-- Digit-run parser: fails on the empty run or on any non-digit. -/
def parseDigits (dv : Char → Option Nat) (base : Nat) (cs : List Char) : Option Nat :=
  if cs = [] then none else parseDigitsAux dv base cs 0

/-- Python `int(text)` (base 10) on a whitespace-free token: optional
sign followed by a non-empty decimal digit run.  (Digit-group
underscores, irrelevant to the analyzed inputs, are not modelled.) -/
def pyIntDec : List Char → Option Int
  | '-' :: rest => (parseDigits decDigitVal 10 rest).map (fun n => -(n : Int))
  | '+' :: rest => (parseDigits decDigitVal 10 rest).map (fun n => (n : Int))
  | cs => (parseDigits decDigitVal 10 cs).map (fun n => (n : Int))

/-- `HMLLDBHelpers.int_value_from_string` (HMLLDBHelpers.py:49-57): a token
starting with `"0x"` goes to `int(s, 16)` (which strips the prefix), any
other token to `int(s)`; an exception yields the failure pair, embedded
here as `none`. -/
def int_value_from_string (cs : List Char) : Option Int :=
  if cs.take 2 = ['0', 'x'] then
    (parseDigits hexDigitVal 16 (cs.drop 2)).map (fun n => (n : Int))
  else pyIntDec cs

/-! ## Line parsing (`get_address_from_assemble_line`) -/

/-- `HMDisassemble.get_address_from_assemble_line` (HMDisassemble.py:122-150):
split on whitespace; fewer than two tokens is the invalid address
(`LLDB_INVALID_ADDRESS`, embedded as `none`); take token 0 (token 1 after a
`"->"` marker) with trailing colons stripped, extract a bracketed body if
present, and parse it as an integer literal. -/
def get_address_from_assemble_line (assemble_line : List Char) : Option Int :=
  match pySplitChars assemble_line with
  | k0 :: k1 :: _ =>
    let address_str := if k0 = ['-', '>'] then rstripColon k1 else rstripColon k0
    int_value_from_string (bracket_extract address_str)
  | _ => none

/-! ## Hex rendering (Python builtin `hex`) -/

def hexDigits16 : List Char := ("0123456789abcdef").data

def hexDigitChar (n : Nat) : Char := hexDigits16.getD n '0'

/-- Fuel-driven hex digit emitter (fuel `n + 1` suffices for `n`). -/
def toHexCharsAux : Nat → Nat → List Char → List Char
  | 0, _, acc => acc
  | fuel + 1, n, acc =>
    if n < 16 then hexDigitChar n :: acc
    else toHexCharsAux fuel (n / 16) (hexDigitChar (n % 16) :: acc)

/-- Lowercase hex digit string of a natural number (`"0"` for 0). -/
def toHexChars (n : Nat) : List Char := toHexCharsAux (n + 1) n []

/-- Python builtin `hex`: `"0x…"`, with `"-0x…"` for negatives. -/
def pyHex (v : Int) : String :=
  if v < 0 then "-0x" ++ (toHexChars v.natAbs).asString
  else "0x" ++ (toHexChars v.toNat).asString

/-! ## adrp arithmetic (`HMInstructionsHelper.py`) -/

/-- `HMInstructionsHelper.calculate_adrp_result_with_immediate_and_pc_address`
(HMInstructionsHelper.py:78-83).  Lean's `Int` `%` is Euclidean and so agrees
with Python `%` for the positive modulus 4096. -/
def calculate_adrp_result_with_immediate_and_pc_address
    (immediate : Int) (pc_address : Int) : Int × String :=
  let immediate_value_temp := immediate * 4096
  let pc_address_value_temp := pc_address - pc_address % 4096
  let result_value := immediate_value_temp + pc_address_value_temp
  (result_value, pyHex result_value)

/-! ## Data model of the annotation walks

An `Instruction` is the read-only view the source takes of an
`lldb.SBInstruction`: mnemonic, raw operand text (`GetOperands`), an
already-decoded typed operand view consumed by the spec-modelled
`HMReference` analyzers, the native comment (`GetComment`), and the load
address. -/

inductive Ops where
  | adrOps (dest : String) (imm : Int)
  | addOps (dest : String) (src : String) (imm : Int)
  | ldrOps (dest : String) (base : String) (offset : Int)
  | movImm (dest : String) (imm : Int)
  | movReg (dest : String) (src : String)
  | noOps
deriving DecidableEq

structure Instruction where
  mnemonic : String
  opStr : String
  ops : Ops
  comment : String
  loadAddress : Int
deriving DecidableEq

/-- Register state: `register_dic`, a map from register name to known value;
an absent key means "unknown".  Embedded as an association list whose
lookup returns the most recent binding (Python dict overwrite). -/
abbrev RegState := List (String × Int)

/-- The `address_comment_dict` mapping load addresses to synthesized
comments, with the same newest-first lookup embedding. -/
abbrev CommentMap := List (Int × String)

def lookupReg : RegState → String → Option Int
  | [], _ => none
  | (k, v) :: rest, r => if k = r then some v else lookupReg rest r

def setReg (dic : RegState) (r : String) (v : Int) : RegState := (r, v) :: dic

def lookupComment : CommentMap → Int → Option String
  | [], _ => none
  | (a, c) :: rest, x => if a = x then some c else lookupComment rest x

def insertComment (d : CommentMap) (a : Int) (c : String) : CommentMap := (a, c) :: d

/-- Modelled from the spec: the external debugger services consumed by the
core (spec §6) — the repository wraps them in code that is not under `src/`.
`readInstructions` is the disassembly service (may return fewer than the
requested count near module end); `readPointer` the fallible memory read;
`lookupSummary` the symbol lookup behind
`HMLLDBHelpers.get_image_lookup_summary_from_address` (empty text when no
symbol resolves); `xsOutput` the raw textual output of the debugger
`x/s <addr>` command used for selector-string resolution. -/
structure Env where
  readInstructions : Int → Nat → List Instruction
  readPointer : Int → Option Int
  lookupSummary : Int → String
  xsOutput : Int → String

/-! ## Substring and split helpers used by the walks -/

def leadsWith : List Char → List Char → Bool
  | [], _ => true
  | _ :: _, [] => false
  | p :: ps, c :: cs => p = c && leadsWith ps cs

def containsSeq (needle : List Char) : List Char → Bool
  | [] => leadsWith needle []
  | c :: cs => leadsWith needle (c :: cs) || containsSeq needle cs

/-- Python substring test `needle in hay`. -/
def strContainsSub (hay needle : String) : Bool := containsSeq needle.data hay.data

/-- Python `str.split(sep)` with an explicit separator: empty fields are
kept, and the empty string yields `[""]`. -/
def splitKeepAux (sep : Char) : List Char → List Char → List (List Char)
  | [], cur => [cur.reverse]
  | c :: cs, cur =>
    if c = sep then cur.reverse :: splitKeepAux sep cs []
    else splitKeepAux sep cs (c :: cur)

def pySplitSep (sep : Char) (s : String) : List String :=
  (splitKeepAux sep s.data []).map List.asString

/-- The selector extraction of `comment_for_branch`
(HMDisassemble.py:293-297): run `x/s <x1>`, split the raw output on single
spaces, and take field 1 when at least two fields exist. -/
def xs_second_token (env : Env) (x1_value : Int) : Option String :=
  match pySplitSep ' ' (env.xsOutput x1_value) with
  | _ :: t :: _ => some t
  | _ => none

/-! ## The register data-flow tracker (spec-modelled `HMReference`)

`HMReference.py` is code of this repository that is not under `src/`; its
analyzers are modelled from spec §4.3 ("Register Data-Flow Tracker") with
the typed operand view the spec's design notes prescribe.  Success is
`some` (carrying the destination register, the resolved value and the
updated register state); a failed precondition is `none`. -/

/-- Modelled from the spec: `HMReference.analyze_adrp` — `adr`/`adrp`
succeed whenever the immediate operand parses; `adrp` resolves through the
page arithmetic of §4.1, `adr` adds the immediate to the instruction
address directly. -/
def analyze_adrp (inst : Instruction) (dic : RegState) :
    Option (String × Int × RegState) :=
  match inst.ops with
  | .adrOps dest imm =>
    let result :=
      if inst.mnemonic = "adrp" then
        (calculate_adrp_result_with_immediate_and_pc_address imm inst.loadAddress).1
      else inst.loadAddress + imm
    some (dest, result, setReg dic dest result)
  | _ => none

/-- Modelled from the spec: `HMReference.analyze_add` — requires the source
register to be known and an immediate operand; destination becomes
`known_value + immediate`; an unknown source register fails. -/
def analyze_add (inst : Instruction) (dic : RegState) :
    Option (String × Int × RegState) :=
  match inst.ops with
  | .addOps dest src imm =>
    match lookupReg dic src with
    | some v => some (dest, v + imm, setReg dic dest (v + imm))
    | none => none
  | _ => none

/-- The `ldrsw` sign extension of spec §4.3: mask to 32 bits, and if bit 31
is set add `0xFFFFFFFF00000000` (Euclidean `%` matches the Python `&` mask
on a positive modulus). -/
def sign_extend_32 (v : Int) : Int :=
  let m := v % 4294967296
  if 2147483648 ≤ m then m + 18446744069414584320 else m

/-- Result record of the `ldr`/`ldrsw` analyzer, mirroring the source tuple
`(can_analyze_ldr, can_get_load_address, target_register_str,
load_address_int, load_result_int)`: `none` stands for
`can_get_load_address = False` (unknown base register). -/
structure LdrAnalysis where
  can_analyze : Bool
  dest : String
  load_address : Int
  load_result : Int
  state : RegState
deriving DecidableEq

/-- Modelled from the spec: `HMReference.analyze_ldr` — requires a known
base register and an offset immediate; the computed address is always
reported; if the external memory read succeeds the loaded value (sign
extended for `ldrsw`) is recorded into the register state, otherwise
`can_analyze` is false, the state is unchanged and only the address is a
partial result. -/
def analyze_ldr (env : Env) (inst : Instruction) (dic : RegState) :
    Option LdrAnalysis :=
  match inst.ops with
  | .ldrOps dest base offset =>
    match lookupReg dic base with
    | none => none
    | some base_value =>
      let addr := base_value + offset
      match env.readPointer addr with
      | none => some ⟨false, dest, addr, 0, dic⟩
      | some raw =>
        let value := if inst.mnemonic = "ldrsw" then sign_extend_32 raw else raw
        some ⟨true, dest, addr, value, setReg dic dest value⟩
  | _ => none

/-- Modelled from the spec: `HMReference.analyze_mov` — destination becomes
the literal immediate or the value copied from a known source register; an
unknown source register fails. -/
def analyze_mov (inst : Instruction) (dic : RegState) :
    Option (String × Int × RegState) :=
  match inst.ops with
  | .movImm dest imm => some (dest, imm, setReg dic dest imm)
  | .movReg dest src =>
    match lookupReg dic src with
    | some v => some (dest, v, setReg dic dest v)
    | none => none
  | _ => none

/-! ## Forward annotation walk (`record_adrp_logic`) -/

/-- The loop body of `HMDisassemble.record_adrp_logic`
(HMDisassemble.py:198-252) over the instructions after the seed: each
supported mnemonic consults its analyzer, stores a synthesized comment when
the instruction lacks a native one, and recurses; a failed analysis or an
unsupported mnemonic is the Python `break`, returning the comment map
unchanged from that point. -/
def record_adrp_walk (env : Env) :
    List Instruction → RegState → CommentMap → CommentMap
  | [], _, dict => dict
  | inst :: rest, dic, dict =>
    if inst.mnemonic = "add" then
      match analyze_add inst dic with
      | none => dict
      | some (dest, v, dic2) =>
        let dict2 :=
          if inst.comment = "" then
            insertComment dict inst.loadAddress
              (dest ++ " = " ++ pyHex v ++ " " ++ env.lookupSummary v)
          else dict
        record_adrp_walk env rest dic2 dict2
    else if inst.mnemonic = "ldr" then
      match analyze_ldr env inst dic with
      | none => dict
      | some la =>
        let dict2 :=
          if inst.comment = "" then
            let lookup0 := if la.can_analyze then env.lookupSummary la.load_result else ""
            let lookup1 := if lookup0 = "" then env.lookupSummary la.load_address else lookup0
            let ldr_comment :=
              if la.can_analyze then la.dest ++ " = " ++ pyHex la.load_result ++ " " ++ lookup1
              else lookup1
            if ldr_comment = "" then dict
            else insertComment dict inst.loadAddress ldr_comment
          else dict
        record_adrp_walk env rest la.state dict2
    else if inst.mnemonic = "ldrsw" then
      match analyze_ldr env inst dic with
      | none => dict
      | some la =>
        if la.can_analyze then
          let dict2 :=
            if inst.comment = "" then
              insertComment dict inst.loadAddress
                (la.dest ++ " = " ++ pyHex la.load_result ++ " " ++ env.lookupSummary la.load_result)
            else dict
          record_adrp_walk env rest la.state dict2
        else dict
    else if inst.mnemonic = "mov" then
      match analyze_mov inst dic with
      | none => dict
      | some (dest, v, dic2) =>
        let dict2 :=
          if inst.comment = "" then
            insertComment dict inst.loadAddress (dest ++ " = " ++ pyHex v)
          else dict
        record_adrp_walk env rest dic2 dict2
    else if inst.mnemonic = "str" then record_adrp_walk env rest dic dict
    else if inst.mnemonic = "nop" then record_adrp_walk env rest dic dict
    else dict

/-- `HMDisassemble.record_adrp_logic` (HMDisassemble.py:177-254): analyze
the seeding `adr`/`adrp` with a fresh register state, store its comment
when it lacks a native one, then read 8 instructions after the seed and
walk them (`for i in range(8)` with an out-of-range index breaking, i.e. a
walk over at most the first 8 instructions returned). -/
def record_adrp_logic (env : Env) (adrp_instruction : Instruction)
    (dict : CommentMap) : CommentMap :=
  match analyze_adrp adrp_instruction [] with
  | none => dict
  | some (target_register, result, dic) =>
    let dict2 :=
      if adrp_instruction.comment = "" then
        insertComment dict adrp_instruction.loadAddress
          (target_register ++ " = " ++ pyHex result)
      else dict
    record_adrp_walk env
      ((env.readInstructions (adrp_instruction.loadAddress + 4) 8).take 8)
      dic dict2

/-! ## Branch-target resolution (`comment_for_branch`) -/

/-- The analysis loop of `HMDisassemble.comment_for_branch`
(HMDisassemble.py:276-321): a `br`/`blr` whose raw operand text is a known
register key emits the final comment (with the `objc_msgSend` selector
special case); tracker opcodes update the state and recurse; `str`/`nop`
pass through; anything else — or a failed analysis, or exhausting the
decoded instructions — returns the empty string. -/
def branch_walk (env : Env) : List Instruction → RegState → String
  | [], _ => ""
  | inst :: rest, dic =>
    if inst.mnemonic = "br" ∨ inst.mnemonic = "blr" then
      match lookupReg dic inst.opStr with
      | none => ""
      | some target_result =>
        let lookup1 := env.lookupSummary target_result
        let my_comment := inst.mnemonic ++ " " ++ inst.opStr ++ ", " ++ inst.opStr
          ++ " = " ++ pyHex target_result ++ " " ++ lookup1
        if strContainsSub lookup1 "objc_msgSend" then
          match lookupReg dic "x1" with
          | some x1_value =>
            match xs_second_token env x1_value with
            | some sel => my_comment ++ ", sel = " ++ sel
            | none => my_comment
          | none => my_comment
        else my_comment
    else if inst.mnemonic = "adr" ∨ inst.mnemonic = "adrp" then
      match analyze_adrp inst dic with
      | none => ""
      | some (_, _, dic2) => branch_walk env rest dic2
    else if inst.mnemonic = "add" then
      match analyze_add inst dic with
      | none => ""
      | some (_, _, dic2) => branch_walk env rest dic2
    else if inst.mnemonic = "ldr" ∨ inst.mnemonic = "ldrsw" then
      match analyze_ldr env inst dic with
      | none => ""
      | some la => if la.can_analyze then branch_walk env rest la.state else ""
    else if inst.mnemonic = "mov" then
      match analyze_mov inst dic with
      | none => ""
      | some (_, _, dic2) => branch_walk env rest dic2
    else if inst.mnemonic = "str" ∨ inst.mnemonic = "nop" then branch_walk env rest dic
    else ""

/-- `HMDisassemble.comment_for_branch` (HMDisassemble.py:257-321): parse
the branch operand as a literal target address, read exactly 10
instructions there (silently yielding `""` when fewer decode), and run the
analysis loop with a fresh register state. -/
def comment_for_branch (env : Env) (branch_instruction : Instruction) : String :=
  match int_value_from_string branch_instruction.opStr.data with
  | none => ""
  | some address_int =>
    let instruction_list := env.readInstructions address_int 10
    if instruction_list.length = 10 then branch_walk env instruction_list []
    else ""

/-! ## Output splicing (`enhanced_disassemble` print loop) -/

/-- One iteration of the print loop of `HMDisassemble.enhanced_disassemble`
(HMDisassemble.py:107-119): a line with no parsable address, or one that
already contains a semicolon, or whose address is absent from the comment
map, passes through unchanged; otherwise the synthesized comment is
appended at the comment column (`str.ljust` padding). -/
def splice_line (dict : CommentMap) (original_comment_index : Nat)
    (line : List Char) : List Char :=
  match get_address_from_assemble_line line with
  | none => line
  | some address_int =>
    if ';' ∈ line then line
    else
      match lookupComment dict address_int with
      | some c =>
        (line ++ List.replicate (original_comment_index - line.length) ' ')
          ++ ';' :: ' ' :: c.data
      | none => line

/-- The full print loop: one output line per input line, in order. -/
def print_result (dict : CommentMap) (original_comment_index : Nat)
    (lines : List (List Char)) : List (List Char) :=
  lines.map (splice_line dict original_comment_index)

/-! ## Concrete inputs used to instantiate theorems with hypotheses -/

/-- An environment whose external services all fail or return nothing. -/
def env0 : Env := ⟨fun _ _ => [], fun _ => none, fun _ => "", fun _ => ""⟩

/-- A direct branch to the literal address `0x1000`. -/
def inst_b : Instruction := ⟨"b", "0x1000", .noOps, "", 8192⟩

/-- An uncommented `nop`. -/
def inst_nop : Instruction := ⟨"nop", "", .noOps, "", 8192⟩

/-- An unsupported instruction for the forward walk. -/
def inst_ret : Instruction := ⟨"ret", "", .noOps, "", 8196⟩

/-- Environment where address 4096 holds the pointer 128, address 4096 has
the symbol text `"symX"` and the loaded value 128 has no symbol. -/
def envC4 : Env :=
  ⟨fun _ _ => [], fun a => if a = 4096 then some 128 else none,
   fun a => if a = 4096 then "symX" else "", fun _ => ""⟩

/-- An uncommented `ldrsw x2, [x5]` at load address 8192. -/
def instC4 : Instruction := ⟨"ldrsw", "x2, [x5]", .ldrOps "x2" "x5" 0, "", 8192⟩

/-- An uncommented `ldr x2, [x5]` at load address 8192. -/
def instC4b : Instruction := ⟨"ldr", "x2, [x5]", .ldrOps "x2" "x5" 0, "", 8192⟩

/-- Register state where the base register `x5` holds 4096. -/
def dicC4 : RegState := [("x5", 4096)]

/-- The analysis result of `instC4`/`instC4b` under `envC4` and `dicC4`. -/
def laC4 : LdrAnalysis := ⟨true, "x2", 4096, 128, [("x2", 128), ("x5", 4096)]⟩

/-- Environment where every memory read fails and address 4096 has the
symbol text `"symA"`. -/
def envC5 : Env :=
  ⟨fun _ _ => [], fun _ => none,
   fun a => if a = 4096 then "symA" else "", fun _ => ""⟩

/-- An uncommented `ldr x2, [x5]` at load address 8192 whose read fails
under `envC5`. -/
def instL : Instruction := ⟨"ldr", "x2, [x5]", .ldrOps "x2" "x5" 0, "", 8192⟩

/-- An uncommented `mov x3, #0x7` at load address 8196. -/
def instM : Instruction := ⟨"mov", "x3, #0x7", .movImm "x3" 7, "", 8196⟩

/-- Register state where the base register `x5` holds 4096. -/
def dicC5 : RegState := [("x5", 4096)]

/-- The analysis result of `instL` under `envC5` and `dicC5`: the address
is computable but the read fails. -/
def laC5 : LdrAnalysis := ⟨false, "x2", 4096, 0, dicC5⟩

/-- Environment for branch resolution: value 100 resolves to an
`objc_msgSend` symbol and `x/s 200` prints a two-field string line. -/
def envB : Env :=
  ⟨fun _ _ => [], fun _ => none,
   fun a => if a = 100 then "libobjc.A.dylib`objc_msgSend" else "",
   fun a => if a = 200 then "0xc8: \"init\"" else ""⟩

/-- An indirect call `blr x8`. -/
def instBlr : Instruction := ⟨"blr", "x8", .noOps, "", 0⟩

/-- Register state where `x8` holds 100 and `x1` holds 200. -/
def dicB : RegState := [("x8", 100), ("x1", 200)]

/-- Branch-resolution environment like `envB` except that the `x/s`
command prints nothing, so its output splits into a single empty field. -/
def envB2 : Env :=
  ⟨fun _ _ => [], fun _ => none,
   fun a => if a = 100 then "libobjc.A.dylib`objc_msgSend" else "",
   fun _ => ""⟩

/-! ## The five documented disassembly line shapes, parameterized by the
embedded address (fillers taken from the examples quoted in
HMDisassemble.py:123-131) -/

/-- The textual address token `0x<hex digits>`. -/
def hexToken (n : Nat) : List Char := '0' :: 'x' :: toHexChars n

/-- Tail of a `sub sp, sp, #0x20` line after the address token. -/
def rest_sub : List Char := ("<+0>:  sub    sp, sp, #0x20").data

/-- Tail of an `adrp` line after the address token. -/
def rest_adrp : List Char := ("adrp   x16, -243123").data

/-- The module name in the bracketed shapes. -/
def module_chars : List Char := ("DemoApp").data

/-- Shape `0xADDR <+N>: mnemonic ops`. -/
def shape_one (n : Nat) : List Char := hexToken n ++ ' ' :: rest_sub

/-- Shape `-> 0xADDR <+N>: ...` (the currently-executing marker). -/
def shape_two (n : Nat) : List Char := '-' :: '>' :: ' ' :: shape_one n

/-- Shape `0xADDR: ...` (colon glued to the address token). -/
def shape_three (n : Nat) : List Char := (hexToken n ++ [':']) ++ ' ' :: rest_adrp

/-- The token `Module[0xADDR]`. -/
def word_module (n : Nat) : List Char := module_chars ++ '[' :: (hexToken n ++ [']'])

/-- Shape `Module[0xADDR] <+N>: ...`. -/
def shape_four (n : Nat) : List Char := word_module n ++ ' ' :: rest_sub

/-- Shape `Module[0xADDR]: ...`. -/
def shape_five (n : Nat) : List Char := (word_module n ++ [':']) ++ ' ' :: rest_adrp

end HMLLDB

namespace HMLLDB

/-! ## Theorems -/

/-- Claim C1: for every pair of integers `(immediate, pc_address)` with
`pc_address` non-negative (negative immediates included), the page-relative
resolution returns exactly `immediate*4096 + pc_address - pc_address % 4096`,
and the result is unchanged when only the low 12 bits of `pc_address`
vary (equal quotients by 4096). -/
theorem adrp_result_formula_and_page_invariance
    (immediate pc_address : Int) (hpc : 0 ≤ pc_address) :
    (calculate_adrp_result_with_immediate_and_pc_address immediate pc_address).1
      = immediate * 4096 + pc_address - pc_address % 4096
    ∧ ∀ pc2 : Int, 0 ≤ pc2 → pc_address / 4096 = pc2 / 4096 →
        (calculate_adrp_result_with_immediate_and_pc_address immediate pc_address).1
          = (calculate_adrp_result_with_immediate_and_pc_address immediate pc2).1 := by
  have hval : ∀ i p : Int,
      (calculate_adrp_result_with_immediate_and_pc_address i p).1
        = i * 4096 + (p - p % 4096) := fun _ _ => rfl
  constructor
  · rw [hval]; omega
  · intro pc2 _ hq
    rw [hval, hval]; omega

/-- Witness for C1 at `immediate = -3`, `pc_address = 0x1fff` and the
low-bits variation `0x1000`. -/
theorem adrp_result_formula_and_page_invariance_witness :
    (calculate_adrp_result_with_immediate_and_pc_address (-3) 8191).1
      = (-3) * 4096 + 8191 - 8191 % 4096
    ∧ (calculate_adrp_result_with_immediate_and_pc_address (-3) 8191).1
      = (calculate_adrp_result_with_immediate_and_pc_address (-3) 4096).1 :=
  ⟨(adrp_result_formula_and_page_invariance (-3) 8191 (by decide)).1,
   (adrp_result_formula_and_page_invariance (-3) 8191 (by decide)).2 4096
     (by decide) (by decide)⟩

/-- Claim C7: a branch whose literal target yields fewer than 10 decoded
instructions produces the empty comment (no annotation, no error). -/
theorem comment_for_branch_short_target (env : Env) (inst : Instruction)
    (a : Int) (hop : int_value_from_string inst.opStr.data = some a)
    (hlen : (env.readInstructions a 10).length < 10) :
    comment_for_branch env inst = "" := by
  unfold comment_for_branch
  rw [hop]
  have hne : ¬ (env.readInstructions a 10).length = 10 := by omega
  simp [hne]

/-- Witness for C7: the empty environment decodes no instruction at the
target of `inst_b`. -/
theorem comment_for_branch_short_target_witness :
    comment_for_branch env0 inst_b = "" :=
  comment_for_branch_short_target env0 inst_b 4096 (by decide) (by decide)

/-- Claim C9: a `str` or `nop` instruction leaves the register state
unchanged and both walks simply continue with the remaining instructions
(it never terminates a walk). -/
theorem str_nop_pass_through (env : Env) (inst : Instruction)
    (rest : List Instruction) (dic : RegState) (dict : CommentMap)
    (h : inst.mnemonic = "str" ∨ inst.mnemonic = "nop") :
    record_adrp_walk env (inst :: rest) dic dict
      = record_adrp_walk env rest dic dict
    ∧ branch_walk env (inst :: rest) dic = branch_walk env rest dic := by
  rcases h with h | h <;>
    exact ⟨by simp [record_adrp_walk, h], by simp [branch_walk, h]⟩

/-- Witness for C9 at a concrete `nop` in the empty environment. -/
theorem str_nop_pass_through_witness :
    record_adrp_walk env0 [inst_nop] [] [] = record_adrp_walk env0 [] [] []
    ∧ branch_walk env0 [inst_nop] [] = branch_walk env0 [] [] :=
  str_nop_pass_through env0 inst_nop [] [] [] (Or.inr (by decide))

/-- Claim C10: a line with fewer than two whitespace-separated tokens
resolves to the invalid address, even when its single token (such as
`"0x1000:"`) would itself parse as a valid address. -/
theorem short_line_returns_invalid :
    (∀ cs : List Char, (pySplitChars cs).length < 2 →
      get_address_from_assemble_line cs = none)
    ∧ get_address_from_assemble_line ("0x1000:").data = none
    ∧ int_value_from_string (bracket_extract (rstripColon ("0x1000:").data))
        = some 4096 := by
  refine ⟨?_, by decide, by decide⟩
  intro cs h
  unfold get_address_from_assemble_line
  match hs : pySplitChars cs with
  | [] => rfl
  | [k] => rfl
  | k0 :: k1 :: r =>
    rw [hs] at h
    simp only [List.length_cons] at h
    omega

/-- Witness for C10 at the one-token line `"0x1"`. -/
theorem short_line_returns_invalid_witness :
    get_address_from_assemble_line ("0x1").data = none :=
  short_line_returns_invalid.1 ("0x1").data (by decide)

/-- Lookup after an insertion: newest binding wins. -/
theorem lookupComment_insert (d : CommentMap) (x : Int) (c : String) (a : Int) :
    lookupComment (insertComment d x c) a
      = if x = a then some c else lookupComment d a := rfl

/-- Inserting at `x` changes the lookup at most at `x`. -/
theorem eq_addr_of_changed {d : CommentMap} {x : Int} {c : String} {a : Int}
    (h : lookupComment (insertComment d x c) a ≠ lookupComment d a) : a = x := by
  rw [lookupComment_insert] at h
  by_cases hx : x = a
  · exact hx.symm
  · simp [hx] at h

/-- A conditional insertion at `x` changes the lookup at most at `x`. -/
theorem changed_of_ite {dict : CommentMap} {x : Int} {c : String} {P : Prop}
    [Decidable P] {a : Int}
    (h : lookupComment (if P then insertComment dict x c else dict) a
          ≠ lookupComment dict a) : a = x := by
  split at h
  · exact eq_addr_of_changed h
  · exact absurd rfl h

/-- A doubly-guarded insertion at `x` changes the lookup at most at `x`. -/
theorem changed_of_ite_ite {dict : CommentMap} {x : Int} {c : String}
    {P Q : Prop} [Decidable P] [Decidable Q] {a : Int}
    (h : lookupComment
          (if P then (if Q then dict else insertComment dict x c) else dict) a
          ≠ lookupComment dict a) : a = x := by
  split at h
  · split at h
    · exact absurd rfl h
    · exact eq_addr_of_changed h
  · exact absurd rfl h

/-- Chaining step: a walk over `rest` started from a comment map that
differs from `dict` only at `x` can change lookups only at `x` or at
addresses of `rest`. -/
theorem walk_chain_case (env : Env) (rest : List Instruction) (x : Int)
    (dic2 : RegState) (dict dict2 : CommentMap) (a : Int)
    (hstep : lookupComment dict2 a ≠ lookupComment dict a → a = x)
    (ih : lookupComment (record_adrp_walk env rest dic2 dict2) a
            ≠ lookupComment dict2 a → a ∈ rest.map (·.loadAddress))
    (h : lookupComment (record_adrp_walk env rest dic2 dict2) a
          ≠ lookupComment dict a) :
    a = x ∨ a ∈ rest.map (·.loadAddress) := by
  by_cases hmid : lookupComment dict2 a = lookupComment dict a
  · exact Or.inr (ih (fun hh => h (hmid ▸ hh)))
  · exact Or.inl (hstep hmid)

/-- Frame property of the forward walk: a lookup in the produced comment
map differs from the input map only at addresses of walked
instructions. -/
theorem record_walk_frame (env : Env) :
    ∀ (insts : List Instruction) (dic : RegState) (dict : CommentMap) (a : Int),
      lookupComment (record_adrp_walk env insts dic dict) a
        ≠ lookupComment dict a →
      a ∈ insts.map (·.loadAddress)
  | [], _, dict, a => fun h => by
    simp only [record_adrp_walk] at h
    exact absurd rfl h
  | inst :: rest, dic, dict, a => fun h => by
    simp only [record_adrp_walk] at h
    simp only [List.map_cons, List.mem_cons]
    split at h
    · -- add
      split at h
      · exact absurd rfl h
      · exact walk_chain_case env rest inst.loadAddress _ dict _ a changed_of_ite
          (record_walk_frame env rest _ _ a) h
    · split at h
      · -- ldr
        split at h
        · exact absurd rfl h
        · exact walk_chain_case env rest inst.loadAddress _ dict _ a
            (fun hc => by
              repeat' first
                | exact absurd rfl hc
                | exact eq_addr_of_changed hc
                | split at hc)
            (record_walk_frame env rest _ _ a) h
      · split at h
        · -- ldrsw
          split at h
          · exact absurd rfl h
          · split at h
            · exact walk_chain_case env rest inst.loadAddress _ dict _ a changed_of_ite
                (record_walk_frame env rest _ _ a) h
            · exact absurd rfl h
        · split at h
          · -- mov
            split at h
            · exact absurd rfl h
            · exact walk_chain_case env rest inst.loadAddress _ dict _ a changed_of_ite
                (record_walk_frame env rest _ _ a) h
          · split at h
            · -- str
              exact Or.inr ((record_walk_frame env rest _ _ a) h)
            · split at h
              · -- nop
                exact Or.inr ((record_walk_frame env rest _ _ a) h)
              · exact absurd rfl h

/-- Claim C3: a forward annotation walk seeded by an `adr`/`adrp` writes
comments only for the seed and at most the 8 instructions read after it,
and an unsupported mnemonic or a failed analysis precondition stops the
walk immediately, with no comment stored from that point on. -/
theorem forward_walk_bounded_and_stops (env : Env) :
    (∀ (seed : Instruction) (dict : CommentMap) (a : Int),
       lookupComment (record_adrp_logic env seed dict) a ≠ lookupComment dict a →
       a = seed.loadAddress
         ∨ a ∈ (((env.readInstructions (seed.loadAddress + 4) 8).take 8).map
                  (·.loadAddress)))
    ∧ (∀ (inst : Instruction) (rest : List Instruction) (dic : RegState)
          (dict : CommentMap),
        inst.mnemonic ∉ (["add", "ldr", "ldrsw", "mov", "str", "nop"] : List String) →
        record_adrp_walk env (inst :: rest) dic dict = dict)
    ∧ (∀ (inst : Instruction) (rest : List Instruction) (dic : RegState)
          (dict : CommentMap), inst.mnemonic = "add" →
        analyze_add inst dic = none →
        record_adrp_walk env (inst :: rest) dic dict = dict)
    ∧ (∀ (inst : Instruction) (rest : List Instruction) (dic : RegState)
          (dict : CommentMap), inst.mnemonic = "ldr" →
        analyze_ldr env inst dic = none →
        record_adrp_walk env (inst :: rest) dic dict = dict)
    ∧ (∀ (inst : Instruction) (rest : List Instruction) (dic : RegState)
          (dict : CommentMap), inst.mnemonic = "ldrsw" →
        analyze_ldr env inst dic = none →
        record_adrp_walk env (inst :: rest) dic dict = dict)
    ∧ (∀ (inst : Instruction) (rest : List Instruction) (dic : RegState)
          (dict : CommentMap) (la : LdrAnalysis), inst.mnemonic = "ldrsw" →
        analyze_ldr env inst dic = some la → la.can_analyze = false →
        record_adrp_walk env (inst :: rest) dic dict = dict)
    ∧ (∀ (inst : Instruction) (rest : List Instruction) (dic : RegState)
          (dict : CommentMap), inst.mnemonic = "mov" →
        analyze_mov inst dic = none →
        record_adrp_walk env (inst :: rest) dic dict = dict) := by
  refine ⟨?_, ?_, ?_, ?_, ?_, ?_, ?_⟩
  · intro seed dict a h
    unfold record_adrp_logic at h
    split at h
    · exact absurd rfl h
    · exact walk_chain_case env _ seed.loadAddress _ dict _ a changed_of_ite
        (record_walk_frame env _ _ _ a) h
  · intro inst rest dic dict hmem
    simp only [List.mem_cons, List.mem_singleton, List.not_mem_nil] at hmem
    push_neg at hmem
    obtain ⟨h1, h2, h3, h4, h5, h6⟩ := hmem
    simp [record_adrp_walk, h1, h2, h3, h4, h5, h6]
  · intro inst rest dic dict hm hana
    simp [record_adrp_walk, hm, hana]
  · intro inst rest dic dict hm hana
    simp [record_adrp_walk, hm, hana]
  · intro inst rest dic dict hm hana
    simp [record_adrp_walk, hm, hana]
  · intro inst rest dic dict la hm hana hca
    simp [record_adrp_walk, hm, hana, hca]
  · intro inst rest dic dict hm hana
    simp [record_adrp_walk, hm, hana]

/-- Witness for C3: an unsupported `ret` stops the walk at once in the
empty environment. -/
theorem forward_walk_bounded_and_stops_witness :
    record_adrp_walk env0 [inst_ret] [] [] = [] :=
  (forward_walk_bounded_and_stops env0).2.1 inst_ret [] [] [] (by decide)

/-- Claim C6: the output-splicing pass never alters a line that already
carries a semicolon; a listing in which every address-bearing line has a
native comment is re-emitted identically; and a synthesized comment is
appended only to semicolon-free lines whose address is in the map. -/
theorem splice_never_overwrites (dict : CommentMap) (idx : Nat) :
    (∀ line : List Char, ';' ∈ line → splice_line dict idx line = line)
    ∧ (∀ lines : List (List Char),
        (∀ l ∈ lines, get_address_from_assemble_line l ≠ none → ';' ∈ l) →
        print_result dict idx lines = lines)
    ∧ (∀ line : List Char, splice_line dict idx line ≠ line →
        ';' ∉ line ∧ ∃ a, get_address_from_assemble_line line = some a
          ∧ (lookupComment dict a).isSome) := by
  have hsemi : ∀ line : List Char, ';' ∈ line → splice_line dict idx line = line := by
    intro line hmem
    unfold splice_line
    match ha : get_address_from_assemble_line line with
    | none => rfl
    | some a => simp [hmem]
  refine ⟨hsemi, ?_, ?_⟩
  · intro lines hall
    unfold print_result
    induction lines with
    | nil => rfl
    | cons l ls ih =>
      have hl : splice_line dict idx l = l := by
        match ha : get_address_from_assemble_line l with
        | none => unfold splice_line; rw [ha]
        | some a =>
          exact hsemi l (hall l (by simp) (by rw [ha]; exact fun h => Option.noConfusion h))
      simp only [List.map_cons, hl]
      rw [ih (fun l hl2 => hall l (by simp [hl2]))]
  · intro line hne
    unfold splice_line at hne
    match ha : get_address_from_assemble_line line with
    | none => rw [ha] at hne; exact absurd rfl hne
    | some a =>
      rw [ha] at hne
      by_cases hmem : ';' ∈ line
      · simp [hmem] at hne
      · refine ⟨hmem, a, rfl, ?_⟩
        simp only [hmem, if_neg] at hne
        match hc : lookupComment dict a with
        | some c => rfl
        | none => rw [hc] at hne; simp at hne

/-- Witness for C6: a commented line passes through, and an
already-commented listing round-trips unchanged. -/
theorem splice_never_overwrites_witness :
    splice_line [] 20 ("0x1000: nop ; hi").data = ("0x1000: nop ; hi").data
    ∧ print_result [] 20 [("0x1000: nop ; hi").data] = [("0x1000: nop ; hi").data] :=
  ⟨(splice_never_overwrites [] 20).1 ("0x1000: nop ; hi").data (by decide),
   (splice_never_overwrites [] 20).2.1 [("0x1000: nop ; hi").data]
     (by intro l hl h; rw [List.mem_singleton] at hl; rw [hl]; decide)⟩

/-- A comment built around `" = "` is never the empty string. -/
theorem mid_append_ne_empty (a b c : String) : a ++ " = " ++ b ++ " " ++ c ≠ "" := by
  intro h
  have hl := congrArg String.length h
  simp only [String.length_append] at hl
  have h3 : (" = " : String).length = 3 := rfl
  have h0 : ("" : String).length = 0 := rfl
  omega

/-- Addresses outside the walked instructions keep their lookups. -/
theorem walk_preserves_outside (env : Env) (insts : List Instruction)
    (dic : RegState) (dict : CommentMap) (a : Int)
    (hout : a ∉ insts.map (·.loadAddress)) :
    lookupComment (record_adrp_walk env insts dic dict) a = lookupComment dict a := by
  by_cases h : lookupComment (record_adrp_walk env insts dic dict) a = lookupComment dict a
  · exact h
  · exact absurd (record_walk_frame env insts dic dict a h) hout

/-- Counterexample to claim C4 as stated: a successfully analyzed `ldrsw`
whose loaded value (128) has no symbol text does not fall back to the
computed address's symbol text (`"symX"` at 4096) — the stored comment is
`"x2 = 0x80 "`, which does not contain `"symX"`. -/
theorem ldrsw_no_fallback_counterexample :
    envC4.lookupSummary 128 = ""
    ∧ envC4.lookupSummary 4096 = "symX"
    ∧ lookupComment (record_adrp_walk envC4 [instC4] dicC4 []) instC4.loadAddress
        = some "x2 = 0x80 "
    ∧ strContainsSub "x2 = 0x80 " "symX" = false := by decide

/-- Amended claim C4: for a successfully analyzed, natively uncommented
`ldr` the synthesized comment uses the loaded value's symbol lookup,
falling back to the computed address's lookup when the former is empty;
for `ldrsw` the comment always uses the loaded value's lookup, with no
fallback. -/
theorem ldr_value_lookup_with_fallback (env : Env) (inst : Instruction)
    (rest : List Instruction) (dic : RegState) (dict : CommentMap)
    (la : LdrAnalysis) :
    (inst.mnemonic = "ldr" → analyze_ldr env inst dic = some la →
      la.can_analyze = true → inst.comment = "" →
      record_adrp_walk env (inst :: rest) dic dict
        = record_adrp_walk env rest la.state
            (insertComment dict inst.loadAddress
              (la.dest ++ " = " ++ pyHex la.load_result ++ " " ++
                (if env.lookupSummary la.load_result = ""
                 then env.lookupSummary la.load_address
                 else env.lookupSummary la.load_result))))
    ∧ (inst.mnemonic = "ldrsw" → analyze_ldr env inst dic = some la →
      la.can_analyze = true → inst.comment = "" →
      record_adrp_walk env (inst :: rest) dic dict
        = record_adrp_walk env rest la.state
            (insertComment dict inst.loadAddress
              (la.dest ++ " = " ++ pyHex la.load_result ++ " " ++
                env.lookupSummary la.load_result))) := by
  constructor
  · intro hm hana hca hcom
    simp only [record_adrp_walk, hm, hana, hca, hcom]
    simp [mid_append_ne_empty]
  · intro hm hana hca hcom
    simp [record_adrp_walk, hm, hana, hca, hcom]

/-- Witness for the amended C4 under `envC4`: the `ldr` twin and the
`ldrsw` instruction at their concrete analysis result. -/
theorem ldr_value_lookup_with_fallback_witness :
    record_adrp_walk envC4 [instC4b] dicC4 []
      = record_adrp_walk envC4 [] laC4.state
          (insertComment [] instC4b.loadAddress
            (laC4.dest ++ " = " ++ pyHex laC4.load_result ++ " " ++
              (if envC4.lookupSummary laC4.load_result = ""
               then envC4.lookupSummary laC4.load_address
               else envC4.lookupSummary laC4.load_result)))
    ∧ record_adrp_walk envC4 [instC4] dicC4 []
      = record_adrp_walk envC4 [] laC4.state
          (insertComment [] instC4.loadAddress
            (laC4.dest ++ " = " ++ pyHex laC4.load_result ++ " " ++
              envC4.lookupSummary laC4.load_result)) :=
  ⟨(ldr_value_lookup_with_fallback envC4 instC4b [] dicC4 [] laC4).1
      rfl (by decide) rfl rfl,
   (ldr_value_lookup_with_fallback envC4 instC4 [] dicC4 [] laC4).2
      rfl (by decide) rfl rfl⟩

/-- Counterexample to claim C5 as stated: under `envC5` the memory read of
the `ldr` at 8192 fails, the computed address's symbol text is stored as a
partial result, and — contrary to the claimed halt — the walk continues
and also annotates the following `mov` at 8196. -/
theorem ldr_unreadable_continues_counterexample :
    envC5.readPointer 4096 = none
    ∧ lookupComment (record_adrp_walk envC5 [instL, instM] dicC5 []) 8192
        = some "symA"
    ∧ lookupComment (record_adrp_walk envC5 [instL, instM] dicC5 []) 8196
        = some "x3 = 0x7" := by decide

/-- Amended claim C5: when the external read fails for an `ldr` whose load
address was computable, the destination register stays unknown (state
unchanged), the computed address's symbol lookup (when non-empty) is
stored as the comment, comments at addresses outside the walked
instructions are kept — and the walk continues with the next
instruction rather than halting. -/
theorem ldr_unreadable_partial_result (env : Env) (inst : Instruction)
    (rest : List Instruction) (dic : RegState) (dict : CommentMap)
    (la : LdrAnalysis) (hm : inst.mnemonic = "ldr")
    (hana : analyze_ldr env inst dic = some la)
    (hca : la.can_analyze = false) :
    (inst.comment = "" →
        record_adrp_walk env (inst :: rest) dic dict
          = record_adrp_walk env rest la.state
              (if env.lookupSummary la.load_address = "" then dict
               else insertComment dict inst.loadAddress
                      (env.lookupSummary la.load_address)))
    ∧ (∀ (a : Int) (c : String), lookupComment dict a = some c →
        a ∉ (inst :: rest).map (·.loadAddress) →
        lookupComment (record_adrp_walk env (inst :: rest) dic dict) a = some c) := by
  constructor
  · intro hcom
    simp only [record_adrp_walk, hm, hana, hca, hcom]
    simp
  · intro a c hc hout
    rw [walk_preserves_outside env _ dic dict a hout]
    exact hc

/-- Witness for the amended C5 at the concrete failing read of `instL`. -/
theorem ldr_unreadable_partial_result_witness :
    record_adrp_walk envC5 [instL] dicC5 []
        = record_adrp_walk envC5 [] laC5.state
            (if envC5.lookupSummary laC5.load_address = "" then []
             else insertComment [] instL.loadAddress
                    (envC5.lookupSummary laC5.load_address)) :=
  (ldr_unreadable_partial_result envC5 instL [] dicC5 [] laC5
      rfl (by decide) rfl).1 rfl

/-- Counterexample to claim C2 as stated: at a reached `blr x8` with `x8`
known (value 100, an `objc_msgSend` symbol) and `x1` known (value 200),
but with an `x/s` read whose raw output splits into fewer than two
space-separated fields, the comment is the bare
`"<mnemonic> <reg>, <reg> = <hex> [symbol]"` text with no
`", sel = "` suffix — contradicting the claimed suffix under
marker-present and `x1`-known alone. -/
theorem branch_sel_suffix_missing_counterexample :
    strContainsSub (envB2.lookupSummary 100) "objc_msgSend" = true
    ∧ lookupReg dicB "x1" = some 200
    ∧ branch_walk envB2 [instBlr] dicB
        = "blr x8, x8 = 0x64 libobjc.A.dylib`objc_msgSend"
    ∧ strContainsSub (branch_walk envB2 [instBlr] dicB) ", sel = " = false := by
  decide

/-- Amended claim C2: `comment_for_branch` runs the analysis loop on the
10 decoded target instructions; at a reached `br`/`blr`, an unknown raw
register operand gives the empty string, and a known register always
gives exactly the base comment
`"<mnemonic> <reg>, <reg> = <hex> [symbol]"` — extended by a
`", sel = <string>"` suffix exactly when the symbol text contains
`objc_msgSend`, `x1` is known, and the `x/s` string read yields a second
space-separated field; when the marker is present but `x1` is unknown, or
the read yields fewer than two fields, the comment is the bare base
text. -/
theorem branch_resolution_comment_cases (env : Env) :
    (∀ (inst : Instruction) (a : Int),
      int_value_from_string inst.opStr.data = some a →
      (env.readInstructions a 10).length = 10 →
      comment_for_branch env inst = branch_walk env (env.readInstructions a 10) [])
    ∧ (∀ (inst : Instruction) (rest : List Instruction) (dic : RegState),
        inst.mnemonic = "br" ∨ inst.mnemonic = "blr" →
        (lookupReg dic inst.opStr = none →
          branch_walk env (inst :: rest) dic = "")
        ∧ (∀ v : Int, lookupReg dic inst.opStr = some v →
            (strContainsSub (env.lookupSummary v) "objc_msgSend" = false →
              branch_walk env (inst :: rest) dic
                = inst.mnemonic ++ " " ++ inst.opStr ++ ", " ++ inst.opStr
                    ++ " = " ++ pyHex v ++ " " ++ env.lookupSummary v)
            ∧ (strContainsSub (env.lookupSummary v) "objc_msgSend" = true →
                lookupReg dic "x1" = none →
                branch_walk env (inst :: rest) dic
                  = inst.mnemonic ++ " " ++ inst.opStr ++ ", " ++ inst.opStr
                      ++ " = " ++ pyHex v ++ " " ++ env.lookupSummary v)
            ∧ (∀ x1v : Int,
                strContainsSub (env.lookupSummary v) "objc_msgSend" = true →
                lookupReg dic "x1" = some x1v →
                xs_second_token env x1v = none →
                branch_walk env (inst :: rest) dic
                  = inst.mnemonic ++ " " ++ inst.opStr ++ ", " ++ inst.opStr
                      ++ " = " ++ pyHex v ++ " " ++ env.lookupSummary v)
            ∧ (∀ (x1v : Int) (sel : String),
                strContainsSub (env.lookupSummary v) "objc_msgSend" = true →
                lookupReg dic "x1" = some x1v →
                xs_second_token env x1v = some sel →
                branch_walk env (inst :: rest) dic
                  = inst.mnemonic ++ " " ++ inst.opStr ++ ", " ++ inst.opStr
                      ++ " = " ++ pyHex v ++ " " ++ env.lookupSummary v
                      ++ ", sel = " ++ sel))) := by
  constructor
  · intro inst a hop hlen
    unfold comment_for_branch
    rw [hop]
    simp [hlen]
  · intro inst rest dic hm
    constructor
    · intro hnone
      rcases hm with hm | hm <;> simp [branch_walk, hm, hnone]
    · intro v hv
      refine ⟨?_, ?_, ?_, ?_⟩
      · intro hmk
        rcases hm with hm | hm <;> simp [branch_walk, hm, hv, hmk]
      · intro hmk hx1
        rcases hm with hm | hm <;> simp [branch_walk, hm, hv, hmk, hx1]
      · intro x1v hmk hx1 hxs
        rcases hm with hm | hm <;> simp [branch_walk, hm, hv, hmk, hx1, hxs]
      · intro x1v sel hmk hx1 hxs
        rcases hm with hm | hm <;> simp [branch_walk, hm, hv, hmk, hx1, hxs]

/-- Witness for the amended C2: under `envB` (two-field `x/s` output) the
`blr x8` comment carries the selector suffix; under `envB2` (empty `x/s`
output) the same state yields the bare base comment. -/
theorem branch_resolution_comment_cases_witness :
    branch_walk envB [instBlr] dicB
      = instBlr.mnemonic ++ " " ++ instBlr.opStr ++ ", " ++ instBlr.opStr
          ++ " = " ++ pyHex 100 ++ " " ++ envB.lookupSummary 100
          ++ ", sel = " ++ "\"init\""
    ∧ branch_walk envB2 [instBlr] dicB
      = instBlr.mnemonic ++ " " ++ instBlr.opStr ++ ", " ++ instBlr.opStr
          ++ " = " ++ pyHex 100 ++ " " ++ envB2.lookupSummary 100 :=
  ⟨(((branch_resolution_comment_cases envB).2 instBlr [] dicB (Or.inr rfl)).2 100
      (by decide)).2.2.2 200 "\"init\"" (by decide) (by decide) (by decide),
   (((branch_resolution_comment_cases envB2).2 instBlr [] dicB (Or.inr rfl)).2 100
      (by decide)).2.2.1 200 (by decide) (by decide) (by decide)⟩

/-! ### Hex rendering facts used for claim C8 -/

/-- `List.getD` stays in the list when the default is in the list. -/
theorem getD_mem_of_default_mem {l : List Char} {d : Char} (hd : d ∈ l)
    (n : Nat) : l.getD n d ∈ l := by
  rw [List.getD_eq_getElem?_getD]
  cases h : l[n]? with
  | none => simpa using hd
  | some c =>
    have := List.getElem?_mem h
    simpa [h] using this

theorem hexDigitChar_mem (m : Nat) : hexDigitChar m ∈ hexDigits16 :=
  getD_mem_of_default_mem (by decide) m

theorem hexDigits16_good :
    ∀ c ∈ hexDigits16, isPySpace c = false ∧ c ≠ ':' ∧ c ≠ '[' ∧ c ≠ ']'
      ∧ c ≠ '-' := by decide

theorem hexDigitVal_hexDigitChar :
    ∀ m : Fin 16, hexDigitVal (hexDigitChar m.val) = some m.val := by decide

/-- Every character emitted by the hex renderer is a hex digit. -/
theorem toHexCharsAux_mem :
    ∀ (fuel n : Nat) (acc : List Char) (c : Char),
      c ∈ toHexCharsAux fuel n acc → c ∈ acc ∨ c ∈ hexDigits16
  | 0, _, acc, c => fun h => Or.inl h
  | fuel + 1, n, acc, c => by
    intro h
    simp only [toHexCharsAux] at h
    split at h
    · rcases List.mem_cons.mp h with h | h
      · exact Or.inr (h ▸ hexDigitChar_mem n)
      · exact Or.inl h
    · rcases toHexCharsAux_mem fuel (n / 16) _ c h with h | h
      · rcases List.mem_cons.mp h with h | h
        · exact Or.inr (h ▸ hexDigitChar_mem (n % 16))
        · exact Or.inl h
      · exact Or.inr h

theorem toHexChars_mem (n : Nat) (c : Char) (h : c ∈ toHexChars n) :
    c ∈ hexDigits16 := by
  rcases toHexCharsAux_mem (n + 1) n [] c h with h | h
  · exact absurd h (List.not_mem_nil c)
  · exact h

/-- The hex renderer never returns the empty digit string. -/
theorem toHexCharsAux_acc_ne :
    ∀ (fuel n : Nat) (acc : List Char), acc ≠ [] → toHexCharsAux fuel n acc ≠ []
  | 0, _, _ => fun h => h
  | fuel + 1, n, acc => by
    intro _
    simp only [toHexCharsAux]
    split
    · simp
    · exact toHexCharsAux_acc_ne fuel (n / 16) _ (by simp)

theorem toHexChars_ne_nil (n : Nat) : toHexChars n ≠ [] := by
  unfold toHexChars
  simp only [toHexCharsAux]
  split
  · simp
  · exact toHexCharsAux_acc_ne n (n / 16) _ (by simp)

/-- The accumulator of the hex renderer is a plain suffix. -/
theorem toHexCharsAux_acc :
    ∀ (fuel n : Nat) (acc : List Char),
      toHexCharsAux fuel n acc = toHexCharsAux fuel n [] ++ acc
  | 0, _, acc => by simp [toHexCharsAux]
  | fuel + 1, n, acc => by
    simp only [toHexCharsAux]
    split
    · simp
    · rw [toHexCharsAux_acc fuel (n / 16) (hexDigitChar (n % 16) :: acc),
          toHexCharsAux_acc fuel (n / 16) [hexDigitChar (n % 16)],
          List.append_assoc, List.singleton_append]

/-- Digit-run parsing distributes over list append via the accumulator. -/
theorem parseDigitsAux_append (dv : Char → Option Nat) (b : Nat) :
    ∀ (xs ys : List Char) (k : Nat),
      parseDigitsAux dv b (xs ++ ys) k
        = (parseDigitsAux dv b xs k).bind (fun k2 => parseDigitsAux dv b ys k2)
  | [], ys, k => by simp [parseDigitsAux]
  | x :: xs, ys, k => by
    simp only [List.cons_append, parseDigitsAux]
    cases dv x with
    | none => simp
    | some d => simp [parseDigitsAux_append dv b xs ys (k * b + d)]

/-- Parsing the rendered hex digits of `n` from accumulator `k` yields
`k * 16 ^ digits + n`. -/
theorem parse_toHexCharsAux :
    ∀ (fuel n k : Nat), n < 16 ^ fuel →
      parseDigitsAux hexDigitVal 16 (toHexCharsAux fuel n []) k
        = some (k * 16 ^ (toHexCharsAux fuel n []).length + n)
  | 0, n, k => by
    intro h
    have hn : n = 0 := by simpa using h
    subst hn
    simp [toHexCharsAux, parseDigitsAux]
  | fuel + 1, n, k => by
    intro h
    by_cases h16 : n < 16
    · have hv := hexDigitVal_hexDigitChar ⟨n, h16⟩
      simp only [toHexCharsAux, if_pos h16]
      simp [parseDigitsAux, hv]
    · have hdiv : n / 16 < 16 ^ fuel := by
        rw [Nat.div_lt_iff_lt_mul (by norm_num)]
        calc n < 16 ^ (fuel + 1) := h
          _ = 16 ^ fuel * 16 := by rw [pow_succ]
      have hv := hexDigitVal_hexDigitChar ⟨n % 16, Nat.mod_lt _ (by norm_num)⟩
      have ih := parse_toHexCharsAux fuel (n / 16) k hdiv
      simp only [toHexCharsAux, if_neg h16]
      rw [toHexCharsAux_acc fuel (n / 16) [hexDigitChar (n % 16)],
          parseDigitsAux_append, ih]
      simp only [Option.some_bind, parseDigitsAux, hv, List.length_append,
        List.length_singleton]
      rw [pow_succ, ← mul_assoc]
      have hq : (k * 16 ^ (toHexCharsAux fuel (n / 16) []).length + n / 16) * 16
          + n % 16
          = k * 16 ^ (toHexCharsAux fuel (n / 16) []).length * 16 + n := by
        generalize k * 16 ^ (toHexCharsAux fuel (n / 16) []).length = q
        omega
      rw [hq]

theorem nat_lt_pow_succ (n : Nat) : n < 16 ^ (n + 1) :=
  lt_of_lt_of_le (Nat.lt_pow_self (by norm_num) n)
    (Nat.pow_le_pow_right (by norm_num) (Nat.le_succ n))

/-- Round trip: the hex digits rendered for `n` parse back to `n`. -/
theorem parse_toHexChars (n : Nat) :
    parseDigits hexDigitVal 16 (toHexChars n) = some n := by
  unfold parseDigits
  rw [if_neg (toHexChars_ne_nil n)]
  have h := parse_toHexCharsAux (n + 1) n 0 (nat_lt_pow_succ n)
  simpa using h

/-- The token `0x<hex digits of n>` parses to `n`. -/
theorem int_value_hexToken (n : Nat) :
    int_value_from_string (hexToken n) = some (n : Int) := by
  unfold int_value_from_string hexToken
  rw [if_pos (show List.take 2 ('0' :: 'x' :: toHexChars n) = ['0', 'x'] from rfl)]
  rw [show List.drop 2 ('0' :: 'x' :: toHexChars n) = toHexChars n from rfl,
      parse_toHexChars]
  rfl

/-! ### Tokenization facts used for claim C8 -/

theorem wordsAux_cons_nonspace (cur : List Char) (c : Char) (cs : List Char)
    (h : isPySpace c = false) : wordsAux cur (c :: cs) = wordsAux (c :: cur) cs := by
  simp [wordsAux, h]

theorem wordsAux_word_end (x : Char) (cur rest : List Char)
    (h : isPySpace x = false) :
    wordsAux cur (x :: ' ' :: rest) = (cur.reverse ++ [x]) :: wordsAux [] rest := by
  rw [wordsAux_cons_nonspace _ _ _ h]
  simp [wordsAux, isPySpace]

/-- A non-empty whitespace-free word followed by a space splits off as one
token. -/
theorem wordsAux_word :
    ∀ (w cur rest : List Char), (∀ c ∈ w, isPySpace c = false) → w ≠ [] →
      wordsAux cur (w ++ ' ' :: rest) = (cur.reverse ++ w) :: wordsAux [] rest
  | [], _, _, _, hne => absurd rfl hne
  | [x], cur, rest, hw, _ => by
    rw [List.singleton_append, wordsAux_word_end x cur rest (hw x (by simp))]
  | x :: y :: w2, cur, rest, hw, _ => by
    rw [List.cons_append, wordsAux_cons_nonspace _ _ _ (hw x (by simp)),
        wordsAux_word (y :: w2) (x :: cur) rest
          (fun c hc => hw c (by simp [List.mem_cons] at hc ⊢; tauto)) (by simp)]
    simp

theorem pySplitChars_word (w rest : List Char)
    (hw : ∀ c ∈ w, isPySpace c = false) (hne : w ≠ []) :
    pySplitChars (w ++ ' ' :: rest) = w :: pySplitChars rest := by
  unfold pySplitChars
  rw [wordsAux_word w [] rest hw hne]
  simp

/-! ### rstrip and bracket facts used for claim C8 -/

theorem rstripColon_no_colon (cs : List Char) (h : ':' ∉ cs) :
    rstripColon cs = cs := by
  unfold rstripColon
  conv_rhs => rw [← List.reverse_reverse cs]
  congr 1
  rcases hr : cs.reverse with _ | ⟨c, t⟩
  · rfl
  · have hc : c ∈ cs := by
      rw [← List.mem_reverse, hr]
      simp
    rw [List.dropWhile_cons, if_neg]
    simp only [decide_eq_true_eq]
    intro hcc
    exact h (hcc ▸ hc)

theorem rstripColon_append_colon (cs : List Char) :
    rstripColon (cs ++ [':']) = rstripColon cs := by
  unfold rstripColon
  rw [List.reverse_append]
  simp [List.dropWhile_cons]

theorem pyFind_not_mem (c : Char) :
    ∀ (cs : List Char), c ∉ cs → pyFind c cs = none
  | [], _ => rfl
  | x :: xs, h => by
    have hx : ¬ x = c := fun hxc => h (by simp [hxc])
    simp only [pyFind, if_neg hx]
    rw [pyFind_not_mem c xs (fun hm => h (by simp [hm]))]
    rfl

theorem pyFind_append_not_mem (c : Char) :
    ∀ (xs ys : List Char), c ∉ xs →
      pyFind c (xs ++ ys) = (pyFind c ys).map (· + xs.length)
  | [], ys, _ => by simp
  | x :: xs, ys, h => by
    have hx : ¬ x = c := fun hxc => h (by simp [hxc])
    simp only [List.cons_append, pyFind, if_neg hx]
    rw [show xs.append ys = xs ++ ys from rfl,
        pyFind_append_not_mem c xs ys (fun hm => h (by simp [hm]))]
    cases pyFind c ys with
    | none => rfl
    | some v => simp [List.length_cons]; omega

/-- A token with no brackets passes through `bracket_extract` unchanged. -/
theorem bracket_extract_id (cs : List Char) (h : '[' ∉ cs) :
    bracket_extract cs = cs := by
  unfold bracket_extract
  rw [pyFind_not_mem '[' cs h]

/-- `bracket_extract` on `pre ++ "[" ++ body ++ "]"` returns `body` when
neither `pre` nor `body` contains a bracket. -/
theorem bracket_extract_module (pre body : List Char)
    (hp1 : '[' ∉ pre) (hp2 : ']' ∉ pre) (hb1 : '[' ∉ body) (hb2 : ']' ∉ body) :
    bracket_extract (pre ++ '[' :: (body ++ [']'])) = body := by
  have hs : pyFind '[' (pre ++ '[' :: (body ++ [']'])) = some pre.length := by
    rw [pyFind_append_not_mem '[' pre _ hp1]
    simp [pyFind]
  have he : pyFind ']' (pre ++ '[' :: (body ++ [']']))
      = some (body.length + 1 + pre.length) := by
    rw [pyFind_append_not_mem ']' pre _ hp2]
    have h1 : pyFind ']' ('[' :: (body ++ [']'])) = some (body.length + 1) := by
      simp only [pyFind, if_neg (by decide : ¬ '[' = ']')]
      rw [pyFind_append_not_mem ']' body _ hb2]
      simp [pyFind]
    rw [h1]
    rfl
  unfold bracket_extract
  rw [hs, he]
  dsimp only
  rw [if_pos (by omega : pre.length < body.length + 1 + pre.length)]
  have hd : (pre ++ '[' :: (body ++ [']'])).drop (pre.length + 1)
      = body ++ [']'] := by
    have : pre ++ '[' :: (body ++ [']']) = (pre ++ ['[']) ++ (body ++ [']']) := by
      simp
    rw [this, List.drop_left']
    simp
  rw [hd]
  have hlen : body.length + 1 + pre.length - (pre.length + 1) = body.length := by
    omega
  rw [hlen, List.take_left]

/-! ### Token-level facts about the five shapes -/

theorem hexToken_nonspace (n : Nat) : ∀ c ∈ hexToken n, isPySpace c = false := by
  intro c hc
  rcases List.mem_cons.mp hc with rfl | hc
  · decide
  rcases List.mem_cons.mp hc with rfl | hc
  · decide
  · exact (hexDigits16_good c (toHexChars_mem n c hc)).1

theorem hexToken_ne_nil (n : Nat) : hexToken n ≠ [] := by
  simp [hexToken]

theorem hexToken_ne_arrow (n : Nat) : hexToken n ≠ ['-', '>'] := by
  intro h
  have h2 := congrArg List.head? h
  rw [show (hexToken n).head? = some '0' from rfl] at h2
  simp at h2

theorem hexToken_no_colon (n : Nat) : ':' ∉ hexToken n := by
  intro h
  rcases List.mem_cons.mp h with h | h
  · exact absurd h (by decide)
  rcases List.mem_cons.mp h with h | h
  · exact absurd h (by decide)
  · exact absurd (toHexChars_mem n ':' h) (by decide)

theorem hexToken_no_lbrack (n : Nat) : '[' ∉ hexToken n := by
  intro h
  rcases List.mem_cons.mp h with h | h
  · exact absurd h (by decide)
  rcases List.mem_cons.mp h with h | h
  · exact absurd h (by decide)
  · exact absurd (toHexChars_mem n '[' h) (by decide)

theorem hexToken_no_rbrack (n : Nat) : ']' ∉ hexToken n := by
  intro h
  rcases List.mem_cons.mp h with h | h
  · exact absurd h (by decide)
  rcases List.mem_cons.mp h with h | h
  · exact absurd h (by decide)
  · exact absurd (toHexChars_mem n ']' h) (by decide)

theorem module_chars_nonspace : ∀ c ∈ module_chars, isPySpace c = false := by
  decide

theorem word_module_nonspace (n : Nat) :
    ∀ c ∈ word_module n, isPySpace c = false := by
  intro c hc
  unfold word_module at hc
  rcases List.mem_append.mp hc with hc | hc
  · exact module_chars_nonspace c hc
  rcases List.mem_cons.mp hc with rfl | hc
  · decide
  rcases List.mem_append.mp hc with hc | hc
  · exact hexToken_nonspace n c hc
  · rw [List.mem_singleton.mp hc]
    decide

theorem word_module_ne_nil (n : Nat) : word_module n ≠ [] := by
  intro h
  rcases List.append_eq_nil.mp h with ⟨_, h2⟩
  exact List.noConfusion h2

theorem word_module_ne_arrow (n : Nat) : word_module n ≠ ['-', '>'] := by
  intro h
  have h2 := congrArg List.head? h
  rw [show (word_module n).head? = some 'D' from rfl] at h2
  simp at h2

theorem word_module_no_colon (n : Nat) : ':' ∉ word_module n := by
  intro h
  unfold word_module at h
  rcases List.mem_append.mp h with h | h
  · exact absurd h (by decide)
  rcases List.mem_cons.mp h with h | h
  · exact absurd h (by decide)
  rcases List.mem_append.mp h with h | h
  · exact hexToken_no_colon n h
  · exact absurd (List.mem_singleton.mp h) (by decide)

/-! ### Composition lemmas for `get_address_from_assemble_line` -/

/-- A line `word ++ " " ++ rest` whose remainder still splits into at
least one token resolves through strip/bracket/parse of the word. -/
theorem get_address_word (w rest : List Char)
    (hsplit : pySplitChars rest ≠ [])
    (hw : ∀ c ∈ w, isPySpace c = false) (hne : w ≠ [])
    (harrow : w ≠ ['-', '>']) :
    get_address_from_assemble_line (w ++ ' ' :: rest)
      = int_value_from_string (bracket_extract (rstripColon w)) := by
  obtain ⟨k1, ks, hk⟩ : ∃ k1 ks, pySplitChars rest = k1 :: ks := by
    cases h : pySplitChars rest with
    | nil => exact absurd h hsplit
    | cons a l => exact ⟨a, l, rfl⟩
  unfold get_address_from_assemble_line
  rw [pySplitChars_word w rest hw hne, hk]
  dsimp only
  rw [if_neg harrow]

/-- The currently-executing marker shifts address extraction to token 1. -/
theorem get_address_arrow (w rest : List Char)
    (hw : ∀ c ∈ w, isPySpace c = false) (hne : w ≠ []) :
    get_address_from_assemble_line ('-' :: '>' :: ' ' :: (w ++ ' ' :: rest))
      = int_value_from_string (bracket_extract (rstripColon w)) := by
  unfold get_address_from_assemble_line
  rw [show ('-' :: '>' :: ' ' :: (w ++ ' ' :: rest))
        = ['-', '>'] ++ ' ' :: (w ++ ' ' :: rest) from rfl,
      pySplitChars_word ['-', '>'] _ (by decide) (by decide),
      pySplitChars_word w rest hw hne]
  dsimp only
  rw [if_pos rfl]

/-- Claim C8: each of the five documented line shapes with embedded
address `n` resolves to `n`, and a line (with at least two tokens) whose
candidate token parses neither as `0x`-prefixed hexadecimal nor as plain
decimal resolves to the invalid-address marker. -/
theorem five_shapes_extract_address :
    (∀ n : Nat, get_address_from_assemble_line (shape_one n) = some (n : Int))
    ∧ (∀ n : Nat, get_address_from_assemble_line (shape_two n) = some (n : Int))
    ∧ (∀ n : Nat, get_address_from_assemble_line (shape_three n) = some (n : Int))
    ∧ (∀ n : Nat, get_address_from_assemble_line (shape_four n) = some (n : Int))
    ∧ (∀ n : Nat, get_address_from_assemble_line (shape_five n) = some (n : Int))
    ∧ (∀ (cs k0 k1 : List Char) (ks : List (List Char)),
        pySplitChars cs = k0 :: k1 :: ks →
        int_value_from_string
          (bracket_extract
            (if k0 = ['-', '>'] then rstripColon k1 else rstripColon k0))
          = none →
        get_address_from_assemble_line cs = none) := by
  refine ⟨?_, ?_, ?_, ?_, ?_, ?_⟩
  · intro n
    unfold shape_one
    rw [get_address_word (hexToken n) rest_sub (by decide)
          (hexToken_nonspace n) (hexToken_ne_nil n) (hexToken_ne_arrow n),
        rstripColon_no_colon _ (hexToken_no_colon n),
        bracket_extract_id _ (hexToken_no_lbrack n),
        int_value_hexToken]
  · intro n
    unfold shape_two shape_one
    rw [get_address_arrow (hexToken n) rest_sub
          (hexToken_nonspace n) (hexToken_ne_nil n),
        rstripColon_no_colon _ (hexToken_no_colon n),
        bracket_extract_id _ (hexToken_no_lbrack n),
        int_value_hexToken]
  · intro n
    unfold shape_three
    rw [get_address_word (hexToken n ++ [':']) rest_adrp (by decide)
          (by
            intro c hc
            rcases List.mem_append.mp hc with hc | hc
            · exact hexToken_nonspace n c hc
            · rw [List.mem_singleton.mp hc]; decide)
          (by
            intro h
            rcases List.append_eq_nil.mp h with ⟨_, h2⟩
            exact List.noConfusion h2)
          (by
            intro h
            have h2 := congrArg List.head? h
            rw [show (hexToken n ++ [':']).head? = some '0' from rfl] at h2
            simp at h2),
        rstripColon_append_colon,
        rstripColon_no_colon _ (hexToken_no_colon n),
        bracket_extract_id _ (hexToken_no_lbrack n),
        int_value_hexToken]
  · intro n
    unfold shape_four
    rw [get_address_word (word_module n) rest_sub (by decide)
          (word_module_nonspace n) (word_module_ne_nil n)
          (word_module_ne_arrow n),
        rstripColon_no_colon _ (word_module_no_colon n)]
    unfold word_module
    rw [bracket_extract_module module_chars (hexToken n) (by decide) (by decide)
          (hexToken_no_lbrack n) (hexToken_no_rbrack n),
        int_value_hexToken]
  · intro n
    unfold shape_five
    rw [get_address_word (word_module n ++ [':']) rest_adrp (by decide)
          (by
            intro c hc
            rcases List.mem_append.mp hc with hc | hc
            · exact word_module_nonspace n c hc
            · rw [List.mem_singleton.mp hc]; decide)
          (by
            intro h
            rcases List.append_eq_nil.mp h with ⟨_, h2⟩
            exact List.noConfusion h2)
          (by
            intro h
            have h2 := congrArg List.head? h
            rw [show (word_module n ++ [':']).head? = some 'D' from rfl] at h2
            simp at h2),
        rstripColon_append_colon,
        rstripColon_no_colon _ (word_module_no_colon n)]
    unfold word_module
    rw [bracket_extract_module module_chars (hexToken n) (by decide) (by decide)
          (hexToken_no_lbrack n) (hexToken_no_rbrack n),
        int_value_hexToken]
  · intro cs k0 k1 ks hsplit hnone
    unfold get_address_from_assemble_line
    rw [hsplit]
    dsimp only
    exact hnone

/-- Witness for C8: the first shape at address 255 and a two-token line
with no parsable address. -/
theorem five_shapes_extract_address_witness :
    get_address_from_assemble_line (shape_one 255) = some 255
    ∧ get_address_from_assemble_line ("hello world").data = none :=
  ⟨five_shapes_extract_address.1 255,
   five_shapes_extract_address.2.2.2.2.2 ("hello world").data
     ("hello").data ("world").data [] (by decide) (by decide)⟩

end HMLLDB
